import Mathlib

namespace FilProofs

/-!
Verification development for the `rust-fil-proofs` core: the halo hash-domain
types (`filecoin-hashers/src/halo/poseidon.rs`, `sha256.rs`), the additive
encode/decode primitive (`storage-proofs-porep/src/encode.rs`), the
Merkle-Damgard Poseidon chain (`hash_md`), and the DRG-PoRep proof scheme
(`storage-proofs/src/drgporep.rs`).  Rust machine bytes are embedded as
natural numbers below 256, byte strings as lists, field elements of the
designated prime field as elements of a Lean `Field`, and panicking or
fallible Rust paths as explicit `Option`/`Except`/sum results.
-/

/-- Little-endian value of a byte string, each byte weighted by a power of 256. -/
def leVal : List Nat → Nat
  | [] => 0
  | b :: bs => b + 256 * leVal bs

/-- The 32 little-endian bytes of a value (the `write_bytes` output of a
32-byte domain repr). -/
def bytes32 (v : Nat) : List Nat :=
  (List.range 32).map fun i => v / 256 ^ i % 256

/-- The four little-endian bytes written by `write_u32::<LittleEndian>(s as u32)`;
the `as u32` truncation is absorbed by the per-byte `% 256` at positions 0-3. -/
def u32le (s : Nat) : List Nat :=
  [s % 256, s / 256 % 256, s / 256 ^ 2 % 256, s / 256 ^ 3 % 256]

/-- Lexicographic comparison of byte strings, as Rust's derived `Ord` on
`&[u8]`: element-wise numeric comparison, shorter-is-less on a strict prefix. -/
def byteCmp : List Nat → List Nat → Ordering
  | [], [] => .eq
  | [], _ :: _ => .lt
  | _ :: _, [] => .gt
  | a :: as_, b :: bs =>
    match compare a b with
    | .eq => byteCmp as_ bs
    | o => o

/-! ## halo::PoseidonDomain (`filecoin-hashers/src/halo/poseidon.rs`)

`PoseidonDomain<F>` wraps the 32-byte little-endian `PrimeField::Repr` of a
Pasta-field element.  The embedding keeps the raw repr bytes; the represented
numeric value is `leVal`. -/

structure PoseidonDomain where
  repr : List Nat
deriving DecidableEq

/-- The Pallas base-field modulus: the canonical bound for `PoseidonDomain Fp`
reprs (a repr is canonical iff its little-endian value is below this). -/
def pallasModulus : Nat :=
  0x40000000000000000000000000000000224698fc094cf91b992d30ed00000001

/-- `Domain::try_from_bytes` for `halo::PoseidonDomain`
(`poseidon.rs` lines 215-220): `ensure!` the length is 32, then copy the bytes
into the repr unconditionally. -/
def PoseidonDomain.try_from_bytes (bytes : List Nat) : Except String PoseidonDomain :=
  if bytes.length ≠ 32 then .error "invalid amount of bytes"
  else .ok ⟨bytes⟩

/-- `Ord::cmp` for `halo::PoseidonDomain` (`poseidon.rs` lines 88-92):
`self.0.as_ref().cmp(other.0.as_ref())`, i.e. byte-wise comparison of reprs. -/
def PoseidonDomain.cmp (a b : PoseidonDomain) : Ordering :=
  byteCmp a.repr b.repr

/-- `PartialOrd::partial_cmp` for `halo::PoseidonDomain`
(`poseidon.rs` lines 96-100): `Some(self.0.as_ref().cmp(other.0.as_ref()))`. -/
def PoseidonDomain.cmpOpt (a b : PoseidonDomain) : Option Ordering :=
  some (byteCmp a.repr b.repr)

/-- The byte sequence `[1, 3, 5, 0, ..., 0]`: little-endian value
`1 + 3*256 + 5*65536 = 328449`. -/
def exBytesA : List Nat := 1 :: 3 :: 5 :: List.replicate 29 0

/-- The byte sequence `[2, 0, ..., 0]`: little-endian value `2`. -/
def exBytesB : List Nat := 2 :: List.replicate 31 0

/-! ## Additive encode/decode (`storage-proofs-porep/src/encode.rs`)

The Domain values entering `encode`/`decode` satisfy the canonical-repr
invariant, so `into_field`/`from_field` biject them with the elements of the
designated prime field; the embedding works directly on that field. -/

/-- `encode_fr` (`encode.rs` lines 12-14): `*key += value` in the field. -/
def encode_fr {F : Type} [Field F] (key value : F) : F :=
  key + value

/-- `encode` (`encode.rs` lines 4-10): lift both domain values into the field,
add via `encode_fr`, and return to the domain. -/
def encode {F : Type} [Field F] (key value : F) : F :=
  encode_fr key value

/-- `decode` (`encode.rs` lines 16-22): lift both domain values into the
field and subtract the key from the value. -/
def decode {F : Type} [Field F] (key value : F) : F :=
  value - key

/-! ## Merkle-Damgard Poseidon chain (`PoseidonFunction::hash_md`,
`filecoin-hashers/src/halo/poseidon.rs` lines 368-401)

The neptune `Poseidon` hasher is embedded as the list of field elements
absorbed since the last `reset`; `input` fails once the arity is exceeded,
`hash` applies the (externally supplied) permutation-based compression to the
absorbed sequence. -/

/-- Modelled from the spec: `neptune::Poseidon::input` on a hasher holding the
already-absorbed elements — appends the element, failing if the registry arity
is already reached. -/
def pInput {F : Type} (arity : Nat) (st : List F) (x : F) : Option (List F) :=
  if arity ≤ st.length then none else some (st ++ [x])

/-- One fold step of `hash_md` (`poseidon.rs` lines 390-398): reset the
hasher, absorb the accumulator, absorb each chunk element, then hash with the
compression `perm`; `none` models the `.expect("input failure")` panic. -/
def mdStep {F : Type} (arity : Nat) (perm : List F → F) (acc : F) (chunk : List F) :
    Option F := do
  let st ← pInput arity [] acc
  let st ← chunk.foldlM (pInput arity) st
  some (perm st)

/-- Splitting of a list into consecutive chunks of at most `k` elements, as
Rust's `slice::chunks(k)` (empty for `k = 0`, where Rust panics). -/
def chunksOf {α : Type} : Nat → List α → List (List α)
  | _, [] => []
  | 0, _ :: _ => []
  | k + 1, a :: l => (a :: l.take k) :: chunksOf (k + 1) (l.drop k)
termination_by k l => l.length
decreasing_by
  simp only [List.length_drop, List.length_cons]
  omega

/-- `PoseidonFunction::hash_md` (`poseidon.rs` lines 368-401): `none` models
the `assert!(input.len() > 1)` failure; otherwise the tail is consumed in
chunks of `arity - 1`, folding `mdStep` from the head element. -/
def hash_md {F : Type} (arity : Nat) (perm : List F → F) : List F → Option F
  | [] => none
  | [_] => none
  | x :: rest => (chunksOf (arity - 1) rest).foldlM (mdStep arity perm) x

/-- The claim's description of the `hash_md` chain: seed the accumulator with
the first element and for each chunk of `arity - 1` further elements replace
the accumulator by the permutation of the accumulator followed by the chunk. -/
def hash_md_spec {F : Type} (arity : Nat) (perm : List F → F) (x : F) (rest : List F) : F :=
  (chunksOf (arity - 1) rest).foldl (fun acc chunk => perm (acc :: chunk)) x

/-! ## DRG-PoRep (`storage-proofs/src/drgporep.rs`)

The protocol is generic over two hashers; their domain values are embedded as
natural numbers carried by the `HybridDomain` tag.  The collaborators that are
not part of this repository slice (the hybrid Merkle tree and proof, the
dependency graph, the hasher's `sloth_decode` and key derivation, and the
hybrid-domain conversions) are modelled from the spec as explicit data. -/

/-- Modelled from the spec: `HybridDomain` — a tagged union of an Alpha-hasher
domain value and a Beta-hasher domain value; tag equality is part of value
equality. -/
inductive HybridDomain : Type
  | alpha (v : Nat)
  | beta (v : Nat)
deriving DecidableEq

/-- The domain value carried by either variant. -/
def HybridDomain.value : HybridDomain → Nat
  | .alpha v => v
  | .beta v => v

/-- Modelled from the spec: `HybridDomain::alpha_value`, the Alpha-hasher
domain element read out of the union. -/
def HybridDomain.alpha_value (d : HybridDomain) : Nat :=
  d.value

/-- Modelled from the spec: `HybridDomain::beta_value`, the Beta-hasher domain
element read out of the union. -/
def HybridDomain.beta_value (d : HybridDomain) : Nat :=
  d.value

/-- Modelled from the spec: the hybrid Merkle inclusion-proof collaborator —
it exposes the ordered `(sibling, is_right)` path, the committed root, the
structural validation predicates `validate(index)` and
`validate_data(leaf_bytes)`, and an opaque serialization byte string. -/
structure HybridMerkleProof : Type where
  path : List (Nat × Bool)
  root : HybridDomain
  validateAt : Nat → Bool
  validateData : HybridDomain → Bool
  serialBytes : List Nat

/-- `DataProof` (`drgporep.rs` lines 122-134): a Merkle inclusion proof plus
the leaf value it attests to. -/
structure DataProof : Type where
  proof : HybridMerkleProof
  data : HybridDomain

/-- The loop body of `DataProof::proves_challenge` (`drgporep.rs` lines
161-177): walk the path, comparing each level's `is_right` flag with the
current low bit of the index, halving the index at each level. -/
def provesAux : Nat → List (Nat × Bool) → Bool
  | _, [] => true
  | idx, (_, isRightProof) :: rest =>
    let isRightCalculated := decide (idx % 2 = 1)
    if xor isRightCalculated isRightProof then false
    else provesAux (idx / 2) rest

/-- `DataProof::proves_challenge` (`drgporep.rs` lines 161-177). -/
def DataProof.proves_challenge (dp : DataProof) (challenge : Nat) : Bool :=
  provesAux challenge dp.proof.path

/-- `DataProof::serialize` (`drgporep.rs` lines 148-156): the inclusion-proof
bytes, then 32 zero bytes appended by `resize` and overwritten in place by
`write_bytes` with the 32-byte leaf value. -/
def DataProof.serialize (dp : DataProof) : List Nat :=
  let out := dp.proof.serialBytes
  let len := out.length
  let padded := out ++ List.replicate 32 0
  padded.take len ++ bytes32 dp.data.value

/-- `Proof` (`drgporep.rs` lines 182-217). -/
structure Proof : Type where
  data_root : HybridDomain
  replica_root : HybridDomain
  replica_nodes : List DataProof
  replica_parents : List (List (Nat × DataProof))
  nodes : List DataProof

/-- `Proof::new` (`drgporep.rs` lines 261-273): the roots are read from the
first decoded-node and first replica-node proofs; `none` models the Rust
index panic on an empty vector. -/
def Proof.new (replica_nodes : List DataProof)
    (replica_parents : List (List (Nat × DataProof)))
    (nodes : List DataProof) : Option Proof :=
  match nodes.head?, replica_nodes.head? with
  | some n0, some r0 =>
    some { data_root := n0.proof.root, replica_root := r0.proof.root,
           replica_nodes := replica_nodes, replica_parents := replica_parents,
           nodes := nodes }
  | _, _ => none

/-- One per-challenge entry of `Proof::serialize` (`drgporep.rs` lines
237-259): the replica-node proof bytes, then for each parent the four zero
bytes of `vec![0u8; 4]` followed by the four little-endian index bytes that
`write_u32` appends to that vector, then the parent proof bytes, then the
decoded-node proof bytes. -/
def serializeEntry (rep : DataProof) (pars : List (Nat × DataProof))
    (node : DataProof) : List Nat :=
  rep.serialize ++
    pars.foldl (fun acc sp =>
      acc ++ (List.replicate 4 0 ++ u32le sp.1) ++ sp.2.serialize) [] ++
    node.serialize

/-- `Proof::serialize` (`drgporep.rs` lines 237-259): one entry per index in
`0..nodes.len()`, concatenated; `none` models the Rust index panic when the
evidence vectors are shorter than `nodes`. -/
def Proof.serialize (p : Proof) : Option (List Nat) :=
  ((List.range p.nodes.length).mapM fun i => do
    let rep ← p.replica_nodes.get? i
    let pars ← p.replica_parents.get? i
    let node ← p.nodes.get? i
    some (serializeEntry rep pars node)).map List.flatten

/-- Modelled from the spec: the dependency Graph collaborator — node count,
in-degree, and the deterministic parent list, which fills exactly `degree`
entries for every node. -/
structure Graph : Type where
  size : Nat
  degree : Nat
  parents : Nat → List Nat
  parents_length : ∀ n, (parents n).length = degree

/-- `PublicParams` (`drgporep.rs` lines 63-77). -/
structure PublicParams : Type where
  graph : Graph
  privateFlag : Bool
  challenges_count : Nat
  beta_height : Nat
  prev_layer_beta_height : Nat

/-- `PublicInputs` (`drgporep.rs` lines 19-28). -/
structure PublicInputs : Type where
  replica_id : Option HybridDomain
  challenges : List Nat
  tau : Option (HybridDomain × HybridDomain)

/-- Modelled from the spec: the hybrid Merkle tree collaborator backing
`PrivateInputs` — root, leaf read, and inclusion-proof generation. -/
structure HybridMerkleTree : Type where
  root : HybridDomain
  readAt : Nat → HybridDomain
  genProof : Nat → HybridMerkleProof

/-- `PrivateInputs` (`drgporep.rs` lines 30-38). -/
structure PrivateInputs : Type where
  tree_d : HybridMerkleTree
  tree_r : HybridMerkleTree

/-- Modelled from the spec: the hasher-level capabilities `prove`/`verify`
depend on — the Blake2s key derivation over the replica id and the parents'
replica values (`drgporep.rs` lines 453-464 composed with
`bytes_into_fr_repr_safe` and the repr-to-domain conversion), the two
hashers' `sloth_decode`, the checked hybrid-domain conversions, and
`vde::decode_domain_block` (total: the spec lists no failure mode for
decoding a single block). -/
structure HasherOps : Type where
  kdf : HybridDomain → List HybridDomain → Nat
  slothDecodeAlpha : Nat → Nat → Nat
  slothDecodeBeta : Nat → Nat → Nat
  convertIntoAlpha : HybridDomain → HybridDomain
  convertIntoBeta : HybridDomain → HybridDomain
  decodeDomainBlock : HybridDomain → HybridMerkleTree → Nat → HybridDomain → List Nat → HybridDomain

/-- The ways the Rust reference aborts instead of returning. -/
inductive PanicKind : Type
  | challengeZero
  | tooManyChallenges
  | missingReplicaId
  | indexOutOfBounds
  | divByZero
deriving DecidableEq

/-- The observable outcome of `DrgPoRep::verify`: a panic, a `Result::Err`,
or `Ok(bool)`. -/
inductive VOut : Type
  | panic (k : PanicKind)
  | err (msg : String)
  | ok (b : Bool)
deriving DecidableEq

/-- The observable outcome of `DrgPoRep::prove`: a panic, a `Result::Err`,
or `Ok(Proof)`. -/
inductive POut : Type
  | panic (k : PanicKind)
  | err (msg : String)
  | ok (p : Proof)

/-- The key recomputation and decoding of `verify` (`drgporep.rs` lines
453-487): derive the key from the replica id and the parents' replica leaves,
`sloth_decode` the challenged replica leaf under the hasher selected by the
current layer's beta height, and convert to the previous layer's variant. -/
def unsealedOf (ops : HasherOps) (pp : PublicParams) (rid : HybridDomain)
    (rep : DataProof) (pars : List (Nat × DataProof)) : HybridDomain :=
  let key := ops.kdf rid (pars.map fun pr => pr.2.data)
  if pp.beta_height = 0 then
    let decoded := HybridDomain.alpha (ops.slothDecodeAlpha key rep.data.alpha_value)
    if pp.prev_layer_beta_height ≠ 0 then ops.convertIntoBeta decoded else decoded
  else
    let decoded := HybridDomain.beta (ops.slothDecodeBeta key rep.data.beta_value)
    if pp.prev_layer_beta_height = 0 then ops.convertIntoAlpha decoded else decoded

/-- One iteration of the `verify` challenge loop (`drgporep.rs` lines
401-497), with the source's early returns: `some out` is an immediate return
of `out` (a failed check or a panic), `none` means all checks passed and the
loop continues with the next challenge.  `c` is the unreduced
`pub_inputs.challenges[i]`. -/
def checkOne (ops : HasherOps) (pp : PublicParams) (proof : Proof)
    (rid? : Option HybridDomain) (c : Nat) (i : Nat) : Option VOut :=
  if pp.graph.size ≤ c then some (.ok false)
  else match proof.nodes.get? i with
  | none => some (.panic .indexOutOfBounds)
  | some node =>
    if ¬ node.proves_challenge c then some (.ok false)
    else match proof.replica_nodes.get? i with
    | none => some (.panic .indexOutOfBounds)
    | some rep =>
      if ¬ rep.proves_challenge c then some (.ok false)
      else
        let expected := pp.graph.parents c
        match proof.replica_parents.get? i with
        | none => some (.panic .indexOutOfBounds)
        | some pars =>
          if pars.length ≠ expected.length then some (.ok false)
          else if ¬ ((pars.zip expected).all fun pr => pr.1.1 == pr.2) then
            some (.ok false)
          else
            let challenge := c % pp.graph.size
            if challenge = 0 then some (.panic .challengeZero)
            else if ¬ rep.proof.validateAt challenge then some (.ok false)
            else if ¬ (pars.all fun pr => pr.2.proof.validateAt pr.1) then
              some (.ok false)
            else match rid? with
            | none => some (.panic .missingReplicaId)
            | some rid =>
              let unsealed := unsealedOf ops pp rid rep pars
              if unsealed ≠ node.data then some (.ok false)
              else if ¬ node.proof.validateData unsealed then some (.ok false)
              else none

/-- The `verify` challenge loop from index `i` over the remaining challenges. -/
def verifyFrom (ops : HasherOps) (pp : PublicParams) (proof : Proof)
    (rid? : Option HybridDomain) : List Nat → Nat → VOut
  | [], _ => .ok true
  | c :: rest, i =>
    match checkOne ops pp proof rid? c i with
    | some out => out
    | none => verifyFrom ops pp proof rid? rest (i + 1)

/-- `DrgPoRep::verify` (`drgporep.rs` lines 396-500). -/
def verify (ops : HasherOps) (pp : PublicParams) (pi_ : PublicInputs)
    (proof : Proof) : VOut :=
  verifyFrom ops pp proof pi_.replica_id pi_.challenges 0

/-- The per-challenge body of `prove` (`drgporep.rs` lines 337-391), mapped
over the challenge list; `Except.error` carries the panic that aborts the
loop. -/
def proveChallenges (ops : HasherOps) (pp : PublicParams) (priv : PrivateInputs)
    (rid? : Option HybridDomain) :
    List Nat → Except PanicKind (List DataProof × List (List (Nat × DataProof)) × List DataProof)
  | [] => .ok ([], [], [])
  | c :: rest =>
    if pp.graph.size = 0 then .error .divByZero
    else
      let challenge := c % pp.graph.size
      if challenge = 0 then .error .challengeZero
      else
        let data := priv.tree_r.readAt challenge
        let repNode : DataProof := ⟨priv.tree_r.genProof challenge, data⟩
        let parents := pp.graph.parents challenge
        let repParents := parents.map fun p =>
          (p, DataProof.mk (priv.tree_r.genProof p) (priv.tree_r.readAt p))
        let nodeProof := priv.tree_d.genProof challenge
        match rid? with
        | none => .error .missingReplicaId
        | some rid =>
          let decoded := ops.decodeDomainBlock rid priv.tree_r challenge data parents
          let extracted :=
            if pp.prev_layer_beta_height = 0 then ops.convertIntoAlpha decoded
            else ops.convertIntoBeta decoded
          let dataNode : DataProof := ⟨nodeProof, extracted⟩
          match proveChallenges ops pp priv rid? rest with
          | .error k => .error k
          | .ok (rs, ps, ns) => .ok (repNode :: rs, repParents :: ps, dataNode :: ns)

/-- `DrgPoRep::prove` (`drgporep.rs` lines 318-394): the challenge-count
assertion, the per-challenge loop, then `Proof::new` on the gathered
evidence. -/
def prove (ops : HasherOps) (pp : PublicParams) (pi_ : PublicInputs)
    (priv : PrivateInputs) : POut :=
  if pp.challenges_count < pi_.challenges.length then .panic .tooManyChallenges
  else match proveChallenges ops pp priv pi_.replica_id pi_.challenges with
  | .error k => .panic k
  | .ok (rs, ps, ns) =>
    match Proof.new rs ps ns with
    | none => .panic .indexOutOfBounds
    | some prf => .ok prf

/-- The claim's per-challenge acceptance conditions, stated as one plain
conjunction (not as the source's early-return chain): the challenge is in
graph range, both leaf proofs structurally correspond to it, the proof's
parent index list equals the graph's parent set in order, the replica-node
and parent Merkle proofs validate, the recomputed-key decoding of the replica
leaf equals the claimed data leaf, that leaf's proof validates it, and the
implicit well-formedness the source enforces by panicking (evidence present
at index `i`, replica id supplied, reduced challenge nonzero). -/
def specChallengePasses (ops : HasherOps) (pp : PublicParams)
    (rid? : Option HybridDomain) (proof : Proof) (c : Nat) (i : Nat) : Bool :=
  match proof.nodes.get? i with
  | none => false
  | some node =>
    match proof.replica_nodes.get? i with
    | none => false
    | some rep =>
      match proof.replica_parents.get? i with
      | none => false
      | some pars =>
        match rid? with
        | none => false
        | some rid =>
          decide (c < pp.graph.size) &&
          node.proves_challenge c &&
          rep.proves_challenge c &&
          decide (pars.map Prod.fst = pp.graph.parents c) &&
          decide (c % pp.graph.size ≠ 0) &&
          rep.proof.validateAt (c % pp.graph.size) &&
          (pars.all fun pr => pr.2.proof.validateAt pr.1) &&
          decide (unsealedOf ops pp rid rep pars = node.data) &&
          node.proof.validateData (unsealedOf ops pp rid rep pars)

/-! ## Concrete instances used by witnesses and counterexamples -/

/-- Hasher capabilities with trivial concrete functions. -/
def exOps : HasherOps :=
  ⟨fun _ _ => 0, fun _ _ => 0, fun _ _ => 0, id, id, fun _ _ _ _ _ => .alpha 0⟩

/-- A two-node graph of degree 1 whose every node has parent list `[0]`. -/
def exGraph2 : Graph := ⟨2, 1, fun _ => [0], fun _ => rfl⟩

/-- Public parameters over the two-node graph. -/
def exPP2 : PublicParams := ⟨exGraph2, false, 2, 0, 0⟩

/-- A four-node graph of degree 2 whose every node has parent list `[0, 0]`. -/
def exGraph4 : Graph := ⟨4, 2, fun _ => [0, 0], fun _ => rfl⟩

/-- Public parameters over the four-node graph. -/
def exPP4 : PublicParams := ⟨exGraph4, false, 2, 0, 0⟩

/-- An inclusion proof with an empty path that validates everything. -/
def exMP : HybridMerkleProof := ⟨[], .alpha 0, fun _ => true, fun _ => true, []⟩

/-- A data proof over the empty-path inclusion proof. -/
def exDP : DataProof := ⟨exMP, .alpha 0⟩

/-- A proof object with no per-challenge evidence at all. -/
def exEmptyProof : Proof := ⟨.alpha 0, .alpha 0, [], [], []⟩

/-- A proof object claiming one challenge with an empty parent list. -/
def exProofNoParents : Proof := ⟨.alpha 0, .alpha 0, [exDP], [[]], [exDP]⟩

/-- A hybrid Merkle tree whose reads and proofs are all trivial. -/
def exTree : HybridMerkleTree := ⟨.alpha 0, fun _ => .alpha 0, fun _ => exMP⟩

/-- Trivial private inputs over the trivial tree. -/
def exPriv : PrivateInputs := ⟨exTree, exTree⟩

/-- A data proof whose single path level carries `is_right = true`: it binds
challenge 1 in a height-1 tree. -/
def exDPbit1 : DataProof := ⟨⟨[(0, true)], .alpha 0, fun _ => true, fun _ => true, []⟩, .alpha 0⟩

/-- A proof object whose first decoded-node evidence binds challenge 1. -/
def exProofBit1 : Proof := ⟨.alpha 0, .alpha 0, [exDPbit1], [[(0, exDP)]], [exDPbit1]⟩

/-- A replica-node data proof with recognizable serialization bytes. -/
def exRep : DataProof := ⟨⟨[], .alpha 0, fun _ => true, fun _ => true, [10, 11]⟩, .alpha 1⟩

/-- A parent data proof with recognizable serialization bytes. -/
def exPar : DataProof := ⟨⟨[], .alpha 0, fun _ => true, fun _ => true, [20]⟩, .alpha 2⟩

/-- A decoded-node data proof with recognizable serialization bytes. -/
def exNode : DataProof := ⟨⟨[], .alpha 0, fun _ => true, fun _ => true, [30]⟩, .alpha 3⟩

/-- A one-challenge proof whose single parent has index 7. -/
def exProofSer : Proof := ⟨.alpha 0, .alpha 0, [exRep], [[(7, exPar)]], [exNode]⟩

/-! ## Structural lemmas about the verify loop -/

/-! ## Claim theorems for the DRG-PoRep proof scheme -/

/-! ## Lemmas and claim theorems -/

/-- Claim C10: the ordering on the halo `PoseidonDomain` is element-wise comparison
of the 32 little-endian repr bytes (`partial_cmp` agreeing with `cmp`), not a
comparison of the represented field values: the canonical reprs
`[1, 3, 5, 0, ...]` and `[2, 0, ...]` compare byte-wise as `lt` although the
first represents the larger field value (both values lie below the Pallas
modulus). -/
theorem poseidonDomain_ord_bytewise :
    (∀ a b : PoseidonDomain, a.cmpOpt b = some (a.cmp b)) ∧
    PoseidonDomain.cmp ⟨exBytesA⟩ ⟨exBytesB⟩ = Ordering.lt ∧
    leVal exBytesB < leVal exBytesA ∧
    leVal exBytesA < pallasModulus ∧ leVal exBytesB < pallasModulus := by
  refine ⟨fun a b => rfl, ?_, ?_, ?_, ?_⟩ <;> decide

/-- Claim C5 counterexample: the 32-byte string of all `0xFF` bytes encodes the value
`2^256 - 1`, which is not below the Pallas modulus, yet
`PoseidonDomain::try_from_bytes` accepts it (the source checks only the
length, never canonicity), contradicting the claim that non-canonical bytes
fail with an `InvalidFieldElement` condition. -/
theorem try_from_bytes_accepts_noncanonical :
    PoseidonDomain.try_from_bytes (List.replicate 32 255)
        = Except.ok ⟨List.replicate 32 255⟩ ∧
    pallasModulus ≤ leVal (List.replicate 32 255) := by
  exact ⟨rfl, by decide⟩

/-- Claim C5 (amended): `try_from_bytes` fails (with the length condition) exactly
when the input is not 32 bytes long; every 32-byte input, canonical or not, is
accepted unchanged — no field-canonicity check is performed. -/
theorem try_from_bytes_checks_length_only (bytes : List Nat) :
    (bytes.length ≠ 32 → PoseidonDomain.try_from_bytes bytes
        = Except.error "invalid amount of bytes") ∧
    (bytes.length = 32 → PoseidonDomain.try_from_bytes bytes = Except.ok ⟨bytes⟩) := by
  constructor <;> intro h <;> simp [PoseidonDomain.try_from_bytes, h]

/-- Claim C5 witness: a 31-byte input is rejected for its length and a
concrete 32-byte input is accepted. -/
theorem try_from_bytes_checks_length_only_witness :
    PoseidonDomain.try_from_bytes (List.replicate 31 0)
        = Except.error "invalid amount of bytes" ∧
    PoseidonDomain.try_from_bytes (List.replicate 32 0)
        = Except.ok ⟨List.replicate 32 0⟩ :=
  ⟨(try_from_bytes_checks_length_only (List.replicate 31 0)).1 (by decide),
   (try_from_bytes_checks_length_only (List.replicate 32 0)).2 (by decide)⟩

/-- Claim C2: for every pair of domain values `k`, `v` of the same Domain type,
`decode(k, encode(k, v)) = v`, `encode` being field addition and `decode`
field subtraction. -/
theorem decode_encode_roundtrip {F : Type} [Field F] (k v : F) :
    decode k (encode k v) = v := by
  simp [decode, encode, encode_fr]

/-- Claim C2 witness: a concrete round-trip in the field with three elements. -/
theorem decode_encode_roundtrip_witness :
    decode (1 : ZMod 3) (encode (1 : ZMod 3) 2) = 2 :=
  decode_encode_roundtrip (1 : ZMod 3) 2

theorem length_le_of_mem_chunksOf {α : Type} : ∀ (k : Nat) (l c : List α),
    c ∈ chunksOf k l → c.length ≤ k
  | _, [], c, hc => by simp [chunksOf] at hc
  | 0, _ :: _, c, hc => by simp [chunksOf] at hc
  | k + 1, a :: l, c, hc => by
    simp only [chunksOf, List.mem_cons] at hc
    rcases hc with rfl | hmem
    · simpa using Nat.succ_le_succ (List.length_take_le k l)
    · exact length_le_of_mem_chunksOf (k + 1) (l.drop k) c hmem
termination_by k l => l.length
decreasing_by
  simp only [List.length_drop, List.length_cons]
  omega

theorem foldlM_pInput_eq {F : Type} {arity : Nat} (chunk : List F) (st : List F)
    (h : st.length + chunk.length ≤ arity) :
    chunk.foldlM (pInput arity) st = some (st ++ chunk) := by
  induction chunk generalizing st with
  | nil => simp
  | cons a chunk ih =>
    have hlt : st.length < arity := by simp at h; omega
    have h1 : pInput arity st a = some (st ++ [a]) := by
      simp [pInput, Nat.not_le.mpr hlt]
    simp only [List.foldlM_cons, h1, Option.bind_eq_bind, Option.some_bind]
    rw [ih (st ++ [a]) (by simp at h ⊢; omega)]
    simp

theorem mdStep_eq {F : Type} {arity : Nat} (perm : List F → F) (acc : F)
    (chunk : List F) (harity : 2 ≤ arity) (hchunk : chunk.length ≤ arity - 1) :
    mdStep arity perm acc chunk = some (perm (acc :: chunk)) := by
  have h0 : pInput arity ([] : List F) acc = some [acc] := by
    simp [pInput]
    omega
  simp only [mdStep, h0, Option.bind_eq_bind, Option.some_bind]
  rw [foldlM_pInput_eq chunk [acc] (by simp; omega)]
  simp

theorem foldlM_mdStep_eq {F : Type} {arity : Nat} (perm : List F → F)
    (harity : 2 ≤ arity) (chunks : List (List F))
    (hall : ∀ c ∈ chunks, c.length ≤ arity - 1) : ∀ x : F,
    chunks.foldlM (mdStep arity perm) x
      = some (chunks.foldl (fun acc c => perm (acc :: c)) x) := by
  induction chunks with
  | nil => intro x; rfl
  | cons c chunks ih =>
    intro x
    have hc := hall c (List.mem_cons_self c chunks)
    simp only [List.foldlM_cons, mdStep_eq perm x c harity hc, Option.bind_eq_bind,
      Option.some_bind, List.foldl_cons]
    exact ih (fun d hd => hall d (List.mem_cons_of_mem c hd)) (perm (x :: c))

/-- Claim C7: `hash_md` fails exactly on inputs of length at most one; on a longer
input it equals the claimed chain: the accumulator is seeded with the first
element and each chunk of `arity - 1` subsequent elements is folded through
one reset/absorb/permute step, the permutation receiving the accumulator
followed by the chunk. -/
theorem hash_md_correct {F : Type} (arity : Nat) (perm : List F → F)
    (input : List F) (harity : 2 ≤ arity) :
    (input.length ≤ 1 → hash_md arity perm input = none) ∧
    (∀ x rest, input = x :: rest → rest ≠ [] →
      hash_md arity perm input = some (hash_md_spec arity perm x rest)) := by
  constructor
  · intro hlen
    rcases input with _ | ⟨a, _ | ⟨b, l⟩⟩
    · rfl
    · rfl
    · simp at hlen
  · rintro x rest rfl hrest
    rcases rest with _ | ⟨r, rest⟩
    · exact absurd rfl hrest
    · show (chunksOf (arity - 1) (r :: rest)).foldlM (mdStep arity perm) x
          = some (hash_md_spec arity perm x (r :: rest))
      rw [foldlM_mdStep_eq perm harity _
        (fun c hc => length_le_of_mem_chunksOf _ _ c hc) x]
      rfl

/-- Claim C7 witness: with arity 3 and summation as the compression, the
Merkle-Damgard chain over `[5, 6, 7, 8]` splits the tail into `[6, 7]` and
`[8]`, and the one-element input `[5]` is rejected. -/
theorem hash_md_correct_witness :
    hash_md 3 List.sum [(5 : Nat)] = none ∧
    hash_md 3 List.sum [(5 : Nat), 6, 7, 8] = some (hash_md_spec 3 List.sum 5 [6, 7, 8]) :=
  ⟨(hash_md_correct 3 List.sum [(5 : Nat)] (by decide)).1 (by decide),
   (hash_md_correct 3 List.sum [(5 : Nat), 6, 7, 8] (by decide)).2 5 [6, 7, 8] rfl
     (by decide)⟩

theorem map_fst_eq_iff_zip {β : Type} (l : List (Nat × β)) (e : List Nat) :
    l.map Prod.fst = e ↔
      (l.length = e.length ∧ ((l.zip e).all fun pr => pr.1.1 == pr.2) = true) := by
  induction l generalizing e with
  | nil => cases e <;> simp
  | cons a l ih =>
    cases e with
    | nil => simp
    | cons b e =>
      simp only [List.map_cons, List.cons.injEq, List.length_cons, List.zip_cons_cons,
        List.all_cons, Bool.and_eq_true, beq_iff_eq, ih, Nat.add_right_cancel_iff]
      tauto

set_option maxHeartbeats 1000000 in
theorem checkOne_some_cases (ops : HasherOps) (pp : PublicParams) (proof : Proof)
    (rid? : Option HybridDomain) (c i : Nat) (out : VOut)
    (h : checkOne ops pp proof rid? c i = some out) :
    out = .ok false ∨ (out = .panic .challengeZero ∧ c % pp.graph.size = 0) ∨
      out = .panic .indexOutOfBounds ∨ out = .panic .missingReplicaId := by
  rw [checkOne] at h
  rcases hn : proof.nodes.get? i with _ | node <;>
    rcases hr : proof.replica_nodes.get? i with _ | rep <;>
      rcases hp : proof.replica_parents.get? i with _ | pars <;>
        rcases hrid : rid? with _ | rid <;>
          simp only [hn, hr, hp, hrid] at h <;>
            split_ifs at h <;> simp_all

set_option maxHeartbeats 1000000 in
theorem checkOne_none_iff (ops : HasherOps) (pp : PublicParams) (proof : Proof)
    (rid? : Option HybridDomain) (c i : Nat) :
    checkOne ops pp proof rid? c i = none ↔
      specChallengePasses ops pp rid? proof c i = true := by
  rw [checkOne, specChallengePasses]
  rcases hn : proof.nodes.get? i with _ | node
  · simp only [hn]
    split_ifs <;> simp
  rcases hr : proof.replica_nodes.get? i with _ | rep
  · simp only [hn, hr]
    split_ifs <;> simp
  rcases hp : proof.replica_parents.get? i with _ | pars
  · simp only [hn, hr, hp]
    split_ifs <;> simp
  rcases hrid : rid? with _ | rid
  · simp only [hn, hr, hp, hrid]
    split_ifs <;> simp
  simp only [hn, hr, hp, hrid]
  split_ifs <;>
    (try simp_all [map_fst_eq_iff_zip, Nat.not_le, Nat.not_lt]) <;>
      assumption

theorem verifyFrom_ok_true_iff (ops : HasherOps) (pp : PublicParams) (proof : Proof)
    (rid? : Option HybridDomain) :
    ∀ (cs : List Nat) (i : Nat),
      verifyFrom ops pp proof rid? cs i = .ok true ↔
        ∀ j (hj : j < cs.length),
          checkOne ops pp proof rid? (cs.get ⟨j, hj⟩) (i + j) = none := by
  intro cs
  induction cs with
  | nil =>
    intro i
    simp [verifyFrom]
  | cons c rest ih =>
    intro i
    rw [verifyFrom]
    rcases hco : checkOne ops pp proof rid? c i with _ | out
    · rw [ih (i + 1)]
      constructor
      · intro hall j hj
        cases j with
        | zero => simpa using hco
        | succ j =>
          have := hall j (by simpa using Nat.lt_of_succ_lt_succ hj)
          simpa [Nat.add_comm, Nat.add_assoc, Nat.add_left_comm] using this
      · intro hall j hj
        have := hall (j + 1) (by simpa using Nat.succ_lt_succ hj)
        simpa [Nat.add_comm, Nat.add_assoc, Nat.add_left_comm] using this
    · constructor
      · rintro rfl
        rcases checkOne_some_cases ops pp proof rid? c i _ hco with h | ⟨h, _⟩ | h | h <;>
          cases h
      · intro hall
        have h0 := hall 0 (by simp)
        simp only [List.get_eq_getElem, List.getElem_cons_zero, Nat.add_zero] at h0
        rw [hco] at h0
        cases h0

theorem verifyFrom_append (ops : HasherOps) (pp : PublicParams) (proof : Proof)
    (rid? : Option HybridDomain) :
    ∀ (pre : List Nat) (i : Nat),
      (∀ j (hj : j < pre.length),
        checkOne ops pp proof rid? (pre.get ⟨j, hj⟩) (i + j) = none) →
      ∀ rest, verifyFrom ops pp proof rid? (pre ++ rest) i
        = verifyFrom ops pp proof rid? rest (i + pre.length) := by
  intro pre
  induction pre with
  | nil =>
    intro i _ rest
    simp
  | cons c pre ih =>
    intro i hall rest
    have h0 : checkOne ops pp proof rid? c i = none := by
      simpa using hall 0 (by simp)
    show verifyFrom ops pp proof rid? (c :: (pre ++ rest)) i = _
    rw [verifyFrom]
    simp only [h0]
    rw [ih (i + 1) (fun j hj => by
      have := hall (j + 1) (by simpa using Nat.succ_lt_succ hj)
      simpa [Nat.add_comm, Nat.add_assoc, Nat.add_left_comm] using this) rest]
    congr 1
    simp only [List.length_cons]
    omega

theorem verifyFrom_ne_err (ops : HasherOps) (pp : PublicParams) (proof : Proof)
    (rid? : Option HybridDomain) :
    ∀ (cs : List Nat) (i : Nat) (m : String),
      verifyFrom ops pp proof rid? cs i ≠ .err m := by
  intro cs
  induction cs with
  | nil =>
    intro i m h
    cases h
  | cons c rest ih =>
    intro i m h
    rw [verifyFrom] at h
    rcases hco : checkOne ops pp proof rid? c i with _ | out
    · rw [hco] at h
      exact ih (i + 1) m h
    · rw [hco] at h
      rcases checkOne_some_cases ops pp proof rid? c i _ hco with h1 | ⟨h1, _⟩ | h1 | h1 <;>
        subst h1 <;> cases h

theorem verifyFrom_no_challengeZero (ops : HasherOps) (pp : PublicParams) (proof : Proof)
    (rid? : Option HybridDomain) :
    ∀ (cs : List Nat) (i : Nat), (∀ c ∈ cs, c % pp.graph.size ≠ 0) →
      verifyFrom ops pp proof rid? cs i ≠ .panic .challengeZero := by
  intro cs
  induction cs with
  | nil =>
    intro i _ h
    cases h
  | cons c rest ih =>
    intro i hall h
    rw [verifyFrom] at h
    rcases hco : checkOne ops pp proof rid? c i with _ | out
    · rw [hco] at h
      exact ih (i + 1) (fun d hd => hall d (List.mem_cons_of_mem c hd)) h
    · rw [hco] at h
      rcases checkOne_some_cases ops pp proof rid? c i _ hco with h1 | ⟨h1, h2⟩ | h1 | h1 <;>
        subst h1
      · cases h
      · exact hall c (List.mem_cons_self c rest) h2
      · cases h
      · cases h

theorem proveChallenges_panics_of_zero (ops : HasherOps) (pp : PublicParams)
    (priv : PrivateInputs) (rid? : Option HybridDomain) :
    ∀ (cs : List Nat), pp.graph.size ≠ 0 → (∃ c ∈ cs, c % pp.graph.size = 0) →
      ∃ k, proveChallenges ops pp priv rid? cs = .error k := by
  intro cs
  induction cs with
  | nil =>
    rintro _ ⟨c, hc, _⟩
    cases hc
  | cons c rest ih =>
    rintro hsz ⟨c0, hc0mem, hc0⟩
    rw [proveChallenges]
    rw [if_neg hsz]
    by_cases hz : c % pp.graph.size = 0
    · exact ⟨.challengeZero, by simp [hz]⟩
    · rcases List.mem_cons.mp hc0mem with rfl | hmem
      · exact absurd hc0 hz
      rcases rid? with _ | rid
      · exact ⟨.missingReplicaId, by simp [hz]⟩
      · obtain ⟨k, hk⟩ := ih hsz ⟨c0, hmem, hc0⟩
        exact ⟨k, by simp [hz, hk]⟩

theorem proveChallenges_no_challengeZero (ops : HasherOps) (pp : PublicParams)
    (priv : PrivateInputs) (rid? : Option HybridDomain) :
    ∀ (cs : List Nat), (∀ c ∈ cs, c % pp.graph.size ≠ 0) →
      proveChallenges ops pp priv rid? cs ≠ .error .challengeZero := by
  intro cs
  induction cs with
  | nil =>
    intro _ h
    cases h
  | cons c rest ih =>
    intro hall h
    rw [proveChallenges] at h
    by_cases hsz : pp.graph.size = 0
    · rw [if_pos hsz] at h
      cases h
    · rw [if_neg hsz] at h
      have hz : c % pp.graph.size ≠ 0 := hall c (List.mem_cons_self c rest)
      simp only [if_neg hz] at h
      rcases rid? with _ | rid
      · cases h
      · rcases hrec : proveChallenges ops pp priv (some rid) rest with k | triple <;>
          rw [hrec] at h
        · injection h with h
          exact ih (fun d hd => hall d (List.mem_cons_of_mem c hd)) (hrec.trans (by rw [h]))
        · cases h

theorem forall_get_cons_iff {α : Type} (e : α) (rest : List α) (P : α → Nat → Prop) :
    (∀ k (hk : k < (e :: rest).length), P ((e :: rest).get ⟨k, hk⟩) k) ↔
      (P e 0 ∧ ∀ k (hk : k < rest.length), P (rest.get ⟨k, hk⟩) (k + 1)) := by
  constructor
  · intro h
    refine ⟨by simpa using h 0 (by simp), fun k hk => ?_⟩
    have := h (k + 1) (by simpa using Nat.succ_lt_succ hk)
    simpa using this
  · rintro ⟨h0, hrest⟩ k hk
    cases k with
    | zero => simpa using h0
    | succ k =>
      have := hrest k (by simpa using Nat.lt_of_succ_lt_succ hk)
      simpa using this

theorem provesAux_true_iff (path : List (Nat × Bool)) : ∀ idx : Nat,
    provesAux idx path = true ↔
      ∀ k (hk : k < path.length), (path.get ⟨k, hk⟩).2 = idx.testBit k := by
  induction path with
  | nil =>
    intro idx
    simp [provesAux]
  | cons e rest ih =>
    intro idx
    rcases e with ⟨s, isR⟩
    rw [provesAux, forall_get_cons_iff (s, isR) rest (fun pr k => pr.2 = idx.testBit k)]
    simp only [Nat.testBit_add_one]
    rw [← ih (idx / 2), Nat.testBit_zero]
    cases hb : decide (idx % 2 = 1) <;> cases isR <;> simp [hb]

/-- Claim C1: `verify` returns `Ok(true)` exactly when every challenge passes
all per-challenge checks (challenge in graph range, both leaf proofs
structurally corresponding to the challenge, parent index list equal to the
graph's parent set in order, all Merkle proofs validating, the recomputed-key
decoding of the replica leaf equal to the claimed data leaf and that leaf
validating, together with the well-formedness the source enforces by
panicking); and the first challenge whose check fails makes `verify` return
`Ok(false)` immediately, the result being independent of every later
challenge. -/
theorem drg_verify_all_checks_short_circuit (ops : HasherOps) (pp : PublicParams)
    (rid? : Option HybridDomain) (tau : Option (HybridDomain × HybridDomain))
    (proof : Proof) :
    (∀ cs : List Nat,
      verify ops pp ⟨rid?, cs, tau⟩ proof = .ok true ↔
        ∀ j (hj : j < cs.length),
          specChallengePasses ops pp rid? proof (cs.get ⟨j, hj⟩) j = true) ∧
    (∀ (pre : List Nat) (c : Nat) (suf suf' : List Nat),
      (∀ j (hj : j < pre.length),
        specChallengePasses ops pp rid? proof (pre.get ⟨j, hj⟩) j = true) →
      checkOne ops pp proof rid? c pre.length = some (.ok false) →
      verify ops pp ⟨rid?, pre ++ c :: suf, tau⟩ proof = .ok false ∧
      verify ops pp ⟨rid?, pre ++ c :: suf, tau⟩ proof
        = verify ops pp ⟨rid?, pre ++ c :: suf', tau⟩ proof) := by
  constructor
  · intro cs
    rw [verify]
    rw [verifyFrom_ok_true_iff]
    constructor
    · intro h j hj
      rw [← checkOne_none_iff]
      simpa using h j hj
    · intro h j hj
      simpa [checkOne_none_iff] using h j hj
  · intro pre c suf suf' hpre hfail
    have hpre' : ∀ j (hj : j < pre.length),
        checkOne ops pp proof rid? (pre.get ⟨j, hj⟩) (0 + j) = none := by
      intro j hj
      rw [checkOne_none_iff]
      simpa using hpre j hj
    have hsuf : ∀ rest, verifyFrom ops pp proof rid? (pre ++ c :: rest) 0 = .ok false := by
      intro rest
      rw [verifyFrom_append ops pp proof rid? pre 0 hpre' (c :: rest), verifyFrom]
      simp only [Nat.zero_add, hfail]
    exact ⟨hsuf suf, (hsuf suf).trans (hsuf suf').symm⟩

/-- Claim C1 witness: on the two-node graph, the challenge list `[2, 9]` fails
its first challenge (2 is out of graph range), so `verify` returns
`Ok(false)` and the trailing challenge 9 is never examined — replacing it
changes nothing. -/
theorem drg_verify_all_checks_short_circuit_witness :
    verify exOps exPP2 ⟨some (.alpha 0), [2, 9], none⟩ exEmptyProof = .ok false ∧
    verify exOps exPP2 ⟨some (.alpha 0), [2, 9], none⟩ exEmptyProof
      = verify exOps exPP2 ⟨some (.alpha 0), [2], none⟩ exEmptyProof :=
  (drg_verify_all_checks_short_circuit exOps exPP2 (some (.alpha 0)) none
    exEmptyProof).2 [] 2 [9] []
    (fun j hj => absurd hj (by simp)) (by decide)

/-- Claim C3 counterexample: the challenge 2 reduces to node index 0 modulo
the two-node graph's size, yet `verify` returns `Ok(false)` (the range check
fires before the challenge-0 assertion) instead of aborting. -/
theorem verify_challenge_zero_reduction_returns_false :
    2 % exPP2.graph.size = 0 ∧
    verify exOps exPP2 ⟨some (.alpha 0), [2], none⟩ exEmptyProof = VOut.ok false :=
  ⟨rfl, rfl⟩

/-- Claim C3 (amended): in `prove`, any challenge reducing to node index 0
modulo the (nonzero) graph size makes the call abort with some panic; in
`verify` the challenge-0 assertion sits after the per-challenge meta checks,
so such a challenge may instead produce `Ok(false)`; under the precondition
that no challenge reduces to 0, the challenge-zero assertion branches of both
`prove` and `verify` are unreachable. -/
theorem challenge_zero_policy_amended (ops : HasherOps) (pp : PublicParams)
    (pi_ : PublicInputs) (priv : PrivateInputs) (proof : Proof) :
    (pp.graph.size ≠ 0 → (∃ c ∈ pi_.challenges, c % pp.graph.size = 0) →
      ∃ k, prove ops pp pi_ priv = POut.panic k) ∧
    ((∀ c ∈ pi_.challenges, c % pp.graph.size ≠ 0) →
      prove ops pp pi_ priv ≠ POut.panic .challengeZero ∧
      verify ops pp pi_ proof ≠ VOut.panic .challengeZero) := by
  constructor
  · intro hsz hex
    rw [prove]
    by_cases hcnt : pp.challenges_count < pi_.challenges.length
    · exact ⟨.tooManyChallenges, by rw [if_pos hcnt]⟩
    · obtain ⟨k, hk⟩ :=
        proveChallenges_panics_of_zero ops pp priv pi_.replica_id pi_.challenges hsz hex
      exact ⟨k, by rw [if_neg hcnt, hk]⟩
  · intro hall
    constructor
    · intro h
      rw [prove] at h
      by_cases hcnt : pp.challenges_count < pi_.challenges.length
      · rw [if_pos hcnt] at h
        cases h
      · rw [if_neg hcnt] at h
        rcases hrec : proveChallenges ops pp priv pi_.replica_id pi_.challenges with
          k | triple <;> simp only [hrec] at h
        · injection h with h
          exact proveChallenges_no_challengeZero ops pp priv pi_.replica_id
            pi_.challenges hall (hrec.trans (by rw [h]))
        · rcases triple with ⟨rs, ps, ns⟩
          rcases hnew : Proof.new rs ps ns with _ | prf <;> simp only [hnew] at h <;>
            simp at h
    · exact verifyFrom_no_challengeZero ops pp proof pi_.replica_id pi_.challenges 0 hall

/-- Claim C3 amended-claim witness: on the two-node graph, `prove` with the
reducing-to-zero challenge 2 panics, while with the challenge list `[1]`
neither `prove` nor `verify` reaches the challenge-zero assertion. -/
theorem challenge_zero_policy_amended_witness :
    (∃ k, prove exOps exPP2 ⟨some (.alpha 0), [2], none⟩ exPriv = POut.panic k) ∧
    (prove exOps exPP2 ⟨some (.alpha 0), [1], none⟩ exPriv ≠ POut.panic .challengeZero ∧
     verify exOps exPP2 ⟨some (.alpha 0), [1], none⟩ exEmptyProof
       ≠ VOut.panic .challengeZero) :=
  ⟨(challenge_zero_policy_amended exOps exPP2 ⟨some (.alpha 0), [2], none⟩ exPriv
      exEmptyProof).1 (by decide) ⟨2, by simp, by decide⟩,
   (challenge_zero_policy_amended exOps exPP2 ⟨some (.alpha 0), [1], none⟩ exPriv
      exEmptyProof).2 (by decide)⟩

/-- Claim C4 counterexample: a proof whose parent vector for the challenge is
empty while the graph expects 2 parents makes `verify` return `Ok(false)` —
not an error — contradicting the claim that a parent-count mismatch raises. -/
theorem verify_parent_length_mismatch_returns_false :
    exProofNoParents.replica_parents = [[]] ∧ exPP4.graph.degree = 2 ∧
    verify exOps exPP4 ⟨some (.alpha 0), [1], none⟩ exProofNoParents = VOut.ok false :=
  ⟨rfl, rfl, rfl⟩

/-- Claim C4 (amended): `verify` never returns `Err` at all — every failed
check, the parent-vector-length mismatch included, yields `Ok(false)`; the
only non-`Ok` outcomes are panics (the challenge-0 assertion, a missing
replica id, or out-of-range evidence indexing). -/
theorem verify_never_raises (ops : HasherOps) (pp : PublicParams)
    (pi_ : PublicInputs) (proof : Proof) (m : String) :
    verify ops pp pi_ proof ≠ VOut.err m :=
  verifyFrom_ne_err ops pp proof pi_.replica_id pi_.challenges 0 m

/-- Claim C6: `proves_challenge c` holds exactly when every path level's
`is_right` flag equals the corresponding binary digit of `c`; consequently a
proof whose first decoded-node evidence binds challenge `c1` of a
full-height path, verified against the single challenge `c2 ≠ c1` in a
`2 ^ h`-node graph, is rejected with `Ok(false)`. -/
theorem proves_challenge_binding (ops : HasherOps) (pp : PublicParams)
    (rid? : Option HybridDomain) (tau : Option (HybridDomain × HybridDomain))
    (proof : Proof) (dp : DataProof) (c1 c2 h : Nat)
    (hnode : proof.nodes.get? 0 = some dp)
    (hbinds : dp.proves_challenge c1 = true)
    (hheight : h ≤ dp.proof.path.length)
    (hsize : pp.graph.size = 2 ^ h)
    (hc1 : c1 < 2 ^ h) (hc2 : c2 < 2 ^ h) (hne : c1 ≠ c2) :
    (∀ (dp' : DataProof) (c : Nat),
      dp'.proves_challenge c = true ↔
        ∀ k (hk : k < dp'.proof.path.length),
          (dp'.proof.path.get ⟨k, hk⟩).2 = c.testBit k) ∧
    verify ops pp ⟨rid?, [c2], tau⟩ proof = .ok false := by
  refine ⟨fun dp' c => provesAux_true_iff dp'.proof.path c, ?_⟩
  have hdiff : ∃ k, c1.testBit k ≠ c2.testBit k := by
    by_contra hcon
    push_neg at hcon
    exact hne (Nat.eq_of_testBit_eq hcon)
  obtain ⟨k0, hk0⟩ := hdiff
  have hk0h : k0 < h := by
    by_contra hge
    push_neg at hge
    have hb1 : c1.testBit k0 = false :=
      Nat.testBit_eq_false_of_lt
        (Nat.lt_of_lt_of_le hc1 (Nat.pow_le_pow_right (by norm_num) hge))
    have hb2 : c2.testBit k0 = false :=
      Nat.testBit_eq_false_of_lt
        (Nat.lt_of_lt_of_le hc2 (Nat.pow_le_pow_right (by norm_num) hge))
    exact hk0 (hb1.trans hb2.symm)
  have hpc2 : dp.proves_challenge c2 = false := by
    rcases hb : dp.proves_challenge c2 with _ | _
    · rfl
    · exfalso
      have hbits1 := (provesAux_true_iff dp.proof.path c1).mp hbinds
      have hbits2 := (provesAux_true_iff dp.proof.path c2).mp hb
      have hklen : k0 < dp.proof.path.length := Nat.lt_of_lt_of_le hk0h hheight
      exact hk0 ((hbits1 k0 hklen).symm.trans (hbits2 k0 hklen))
  have hcheck : checkOne ops pp proof rid? c2 0 = some (.ok false) := by
    rw [checkOne]
    rw [if_neg (by rw [hsize]; exact Nat.not_le.mpr hc2)]
    simp only [hnode, hpc2]
    simp
  show verifyFrom ops pp proof rid? [c2] 0 = .ok false
  rw [verifyFrom]
  simp only [hcheck]

/-- Claim C6 witness: the evidence bound to challenge 1 by a single
`is_right = true` path level is rejected when verified against challenge 0 on
the two-node graph. -/
theorem proves_challenge_binding_witness :
    (∀ (dp' : DataProof) (c : Nat),
      dp'.proves_challenge c = true ↔
        ∀ k (hk : k < dp'.proof.path.length),
          (dp'.proof.path.get ⟨k, hk⟩).2 = c.testBit k) ∧
    verify exOps exPP2 ⟨some (.alpha 0), [0], none⟩ exProofBit1 = .ok false :=
  proves_challenge_binding exOps exPP2 (some (.alpha 0)) none exProofBit1 exDPbit1
    1 0 1 rfl (by decide) (by decide) rfl (by decide) (by decide) (by decide)

/-- Claim C8 (code-bug evidence): on a one-challenge proof with one parent of
index 7, the serialized proof carries the parent index as the four zero bytes
of the `vec![0u8; 4]` allocation followed by the four little-endian index
bytes that `write_u32` appends, instead of the claimed bare 4-byte
little-endian index: the output differs from the specified layout. -/
theorem proof_serialize_parent_extra_zero_bytes :
    Proof.serialize exProofSer
      = some (exRep.serialize ++ ([0, 0, 0, 0] ++ u32le 7) ++ exPar.serialize
          ++ exNode.serialize) ∧
    Proof.serialize exProofSer
      ≠ some (exRep.serialize ++ u32le 7 ++ exPar.serialize ++ exNode.serialize) := by
  constructor <;> decide

/-- Claim C9: for nonempty evidence vectors, `Proof::new` takes `data_root`
from the first decoded-node proof and `replica_root` from the first
replica-node proof, and stores the three vectors unchanged. -/
theorem proof_new_roots (replica_nodes : List DataProof)
    (replica_parents : List (List (Nat × DataProof))) (nodes : List DataProof)
    (r0 n0 : DataProof) (hr : replica_nodes.head? = some r0)
    (hn : nodes.head? = some n0) :
    Proof.new replica_nodes replica_parents nodes
      = some { data_root := n0.proof.root, replica_root := r0.proof.root,
               replica_nodes := replica_nodes, replica_parents := replica_parents,
               nodes := nodes } := by
  rw [Proof.new]
  simp only [hn, hr]

/-- Claim C9 witness: `Proof::new` on concrete singleton evidence vectors. -/
theorem proof_new_roots_witness :
    Proof.new [exDP] [[]] [exDP]
      = some { data_root := exDP.proof.root, replica_root := exDP.proof.root,
               replica_nodes := [exDP], replica_parents := [[]], nodes := [exDP] } :=
  proof_new_roots [exDP] [[]] [exDP] exDP exDP rfl rfl

end FilProofs
